import Mathlib

/-!
Verification of the sample event publisher (`producer_put_events.py`).

The script builds three JSON payloads, submits each as a single-entry batch
to an external event-bus client, and prints status lines.  We embed it
shallowly: the external client is a parameter (a function from the submitted
batch to either a response or an exception message, per call), randomness
(the uuid hex string) and timestamps are parameters, and each run is a pure
trace of submitted batches and printed lines.
-/

namespace Producer

/-! ### JSON values

The fragment of JSON used by the program: strings, integers, decimal
numbers (`jdec m p` denotes `m / 10 ^ p`, e.g. `jdec 1499 1` is `149.9`),
arrays and objects. -/

inductive JVal : Type where
  | jstr : String → JVal
  | jint : Int → JVal
  | jdec : Int → Nat → JVal
  | jarr : List JVal → JVal
  | jobj : List (String × JVal) → JVal

/-- Decimal digits of a natural number, as characters. -/
def natChars (n : Nat) : List Char := Nat.toDigits 10 n

/-- Decimal rendering of an integer. -/
def intChars : Int → List Char
  | .ofNat n => natChars n
  | .negSucc k => '-' :: natChars (k + 1)

/-- Left-pad a digit string with zeros to length `p`. -/
def padZeros (p : Nat) (ds : List Char) : List Char :=
  List.replicate (p - ds.length) '0' ++ ds

/-- Rendering of the decimal `m / 10 ^ p` (e.g. `1499 / 10 ^ 1` as `149.9`),
matching the way the serializer prints the one float the script uses. -/
def decChars (m : Int) (p : Nat) : List Char :=
  match m with
  | .ofNat n => natChars (n / 10 ^ p) ++ '.' :: padZeros p (natChars (n % 10 ^ p))
  | .negSucc k =>
      '-' :: (natChars ((k + 1) / 10 ^ p) ++ '.' :: padZeros p (natChars ((k + 1) % 10 ^ p)))

/-- Lowercase hex digit character for `n < 16`. -/
def hexChar (n : Nat) : Char :=
  if n < 10 then Char.ofNat (48 + n) else Char.ofNat (87 + n)

/-- JSON string escaping of one character (quote, backslash, control chars). -/
def escChar (c : Char) : List Char :=
  if c = '"' then ['\\', '"']
  else if c = '\\' then ['\\', '\\']
  else if c = '\n' then ['\\', 'n']
  else if c = '\t' then ['\\', 't']
  else if c = '\r' then ['\\', 'r']
  else if c.toNat = 8 then ['\\', 'b']
  else if c.toNat = 12 then ['\\', 'f']
  else if c.toNat < 32 then ['\\', 'u', '0', '0', hexChar (c.toNat / 16), hexChar (c.toNat % 16)]
  else [c]

/-- Body of a serialized JSON string (escaped characters, no quotes). -/
def strBody : List Char → List Char
  | [] => []
  | c :: cs => escChar c ++ strBody cs

mutual

/-- Serialization of a JSON value, matching the default formatting of the
serializer the script calls (item separator comma-space, key separator
colon-space). -/
def serChars : JVal → List Char
  | .jstr s => '"' :: (strBody s.data ++ ['"'])
  | .jint i => intChars i
  | .jdec m p => decChars m p
  | .jarr vs => '[' :: (serItems vs ++ [']'])
  | .jobj fs => '\x7b' :: (serFields fs ++ ['\x7d'])

/-- Serialization of array items, separated by comma-space. -/
def serItems : List JVal → List Char
  | [] => []
  | [v] => serChars v
  | v :: w :: vs => serChars v ++ ',' :: ' ' :: serItems (w :: vs)

/-- Serialization of object fields, separated by comma-space. -/
def serFields : List (String × JVal) → List Char
  | [] => []
  | [(k, v)] => '"' :: (strBody k.data ++ '"' :: ':' :: ' ' :: serChars v)
  | (k, v) :: g :: fs =>
      ('"' :: (strBody k.data ++ '"' :: ':' :: ' ' :: serChars v)) ++
        ',' :: ' ' :: serFields (g :: fs)

end

/-- `json.dumps`: serialize a JSON value to a string. -/
def dumps (v : JVal) : String := String.mk (serChars v)

/-! ### JSON parsing (`json.loads`, on the fragment above) -/

/-- Decimal digit character (codepoints 48–57). -/
def isDigitC (c : Char) : Bool := decide (48 ≤ c.toNat) && decide (c.toNat ≤ 57)

/-- A character that JSON serializes as itself: not a quote, not a
backslash, not a control character. -/
def plainChar (c : Char) : Bool :=
  decide (c ≠ '"') && decide (c ≠ '\\') && decide (32 ≤ c.toNat)

/-- JSON whitespace. -/
def isWs (c : Char) : Bool := c = ' ' || c = '\n' || c = '\t' || c = '\r'

/-- Skip leading whitespace. -/
def skipWs (cs : List Char) : List Char := cs.dropWhile isWs

/-- Decode one short escape character. -/
def unescChar (c : Char) : Option Char :=
  if c = '"' then some '"'
  else if c = '\\' then some '\\'
  else if c = '/' then some '/'
  else if c = 'n' then some '\n'
  else if c = 't' then some '\t'
  else if c = 'r' then some '\r'
  else if c = 'b' then some (Char.ofNat 8)
  else if c = 'f' then some (Char.ofNat 12)
  else none

/-- Read a string body up to the closing quote, decoding short escapes;
returns the decoded characters and the remainder after the quote. -/
def readStr : List Char → Option (List Char × List Char)
  | [] => none
  | '"' :: rest => some ([], rest)
  | '\\' :: c :: rest =>
      match unescChar c with
      | some d => (readStr rest).map fun p => (d :: p.1, p.2)
      | none => none
  | c :: rest =>
      if c.toNat < 32 then none
      else (readStr rest).map fun p => (c :: p.1, p.2)

/-- Fold decimal digit characters into a natural number. -/
def digitsToNat (ds : List Char) : Nat :=
  ds.foldl (fun a c => 10 * a + (c.toNat - 48)) 0

/-- Read a JSON number (integer or decimal, no exponent — the fragment the
program emits): optional sign, digits, and an optional fraction. -/
def readNum (cs : List Char) : Option (JVal × List Char) :=
  let signed := match cs with
    | '-' :: r => (true, r)
    | _ => (false, cs)
  let ds := signed.2.takeWhile isDigitC
  let cs2 := signed.2.dropWhile isDigitC
  if ds.isEmpty then none
  else
    match cs2 with
    | '.' :: cs3 =>
        let fs := cs3.takeWhile isDigitC
        if fs.isEmpty then none
        else
          let m : Int := Int.ofNat (digitsToNat ds * 10 ^ fs.length + digitsToNat fs)
          some (.jdec (if signed.1 then -m else m) fs.length, cs3.dropWhile isDigitC)
    | _ =>
        let n : Int := Int.ofNat (digitsToNat ds)
        some (.jint (if signed.1 then -n else n), cs2)

mutual

/-- Parse one JSON value after skipping whitespace; `fuel` bounds the
recursion depth and is decremented on every recursive step. -/
def parseVal : Nat → List Char → Option (JVal × List Char)
  | 0, _ => none
  | fuel + 1, cs =>
      match skipWs cs with
      | [] => none
      | '"' :: rest => (readStr rest).map fun p => (.jstr (String.mk p.1), p.2)
      | '[' :: rest =>
          match skipWs rest with
          | ']' :: r2 => some (.jarr [], r2)
          | _ => (parseItems fuel rest).map fun p => (.jarr p.1, p.2)
      | '\x7b' :: rest =>
          match skipWs rest with
          | '\x7d' :: r2 => some (.jobj [], r2)
          | _ => (parseFields fuel rest).map fun p => (.jobj p.1, p.2)
      | c :: rest =>
          if c = '-' || isDigitC c then readNum (c :: rest) else none

/-- Parse the comma-separated items of a non-empty array, consuming the
closing bracket. -/
def parseItems : Nat → List Char → Option (List JVal × List Char)
  | 0, _ => none
  | fuel + 1, cs =>
      match parseVal fuel cs with
      | none => none
      | some (v, r) =>
          match skipWs r with
          | ',' :: r2 => (parseItems fuel r2).map fun p => (v :: p.1, p.2)
          | ']' :: r2 => some ([v], r2)
          | _ => none

/-- Parse the comma-separated fields of a non-empty object, consuming the
closing brace. -/
def parseFields : Nat → List Char → Option (List (String × JVal) × List Char)
  | 0, _ => none
  | fuel + 1, cs =>
      match skipWs cs with
      | '"' :: rest =>
          match readStr rest with
          | none => none
          | some (k, r) =>
              match skipWs r with
              | ':' :: r2 =>
                  match parseVal fuel r2 with
                  | none => none
                  | some (v, r3) =>
                      match skipWs r3 with
                      | ',' :: r4 =>
                          (parseFields fuel r4).map fun p => ((String.mk k, v) :: p.1, p.2)
                      | '\x7d' :: r4 => some ([(String.mk k, v)], r4)
                      | _ => none
              | _ => none
      | _ => none

end

/-- `json.loads`: parse a string as one JSON value, allowing trailing
whitespace only.  The fuel `s.length + 1` dominates the recursion depth of
any value a string of that length can spell. -/
def loads (s : String) : Option JVal :=
  match parseVal (s.length + 1) s.data with
  | some (v, r) => if skipWs r = [] then some v else none
  | none => none

/-! ### The external client interface -/

/-- Configured destination bus (`BUS_NAME` in the script). -/
def BUS_NAME : String := "ecom-bus"

/-- Configured service region (`REGION` in the script). -/
def REGION : String := "us-east-1"

/-- One entry of a put-events batch, as the script builds it. -/
structure Entry where
  eventBusName : String
  source : String
  detailType : String
  detail : String
  time : Nat
deriving DecidableEq

/-- One entry of the service response: a service-assigned event id on
success, error fields on failure. -/
structure RespEntry where
  eventId : Option String
  errorCode : Option String
  errorMessage : Option String
deriving DecidableEq

/-- The service response to a put-events call. -/
structure PutEventsResponse where
  failedEntryCount : Nat
  entries : List RespEntry
deriving DecidableEq

/-- A single call to the external client: it receives the batch and either
returns a response or raises an exception carrying a message. -/
def ClientCall : Type := List Entry → Except String PutEventsResponse

/-- Python `repr` of one response-entry dict, as printed in the failure
diagnostic. -/
def reprRespEntry (e : RespEntry) : String :=
  let parts :=
    (match e.eventId with
     | some v => ["\x27EventId\x27: \x27" ++ v ++ "\x27"]
     | none => []) ++
    (match e.errorCode with
     | some v => ["\x27ErrorCode\x27: \x27" ++ v ++ "\x27"]
     | none => []) ++
    (match e.errorMessage with
     | some v => ["\x27ErrorMessage\x27: \x27" ++ v ++ "\x27"]
     | none => [])
  "\x7b" ++ String.intercalate ", " parts ++ "\x7d"

/-- Python `repr` of the response-entry list, as printed in the failure
diagnostic. -/
def reprEntries (es : List RespEntry) : String :=
  "[" ++ String.intercalate ", " (es.map reprRespEntry) ++ "]"

/-! ### The publisher -/

/-- Everything one `publish_event` call produces: the batch submitted to the
client, the lines printed, and the caller-visible detail value after the
call (the source never mutates it; threading it makes that checkable). -/
structure CallRecord where
  submitted : List Entry
  output : List String
  detailAfter : JVal

/-- `publish_event(source, detail_type, detail)`: build a single-entry batch
tagged with the configured bus name, the arguments, the serialized detail
and the call-time timestamp; submit it once; print a success confirmation
with the service-assigned event id on zero failed entries, a failure
diagnostic listing the entries on a positive failed-entry count, and an
error diagnostic with the exception message when the call raises.  The
except-branch of the source also covers the dict/list accesses inside the
try block, so those are modelled on their Python failure messages. -/
def publish_event (call : ClientCall) (time : Nat)
    (source detail_type : String) (detail : JVal) : CallRecord :=
  let entry : Entry := ⟨BUS_NAME, source, detail_type, dumps detail, time⟩
  let out : List String :=
    match call [entry] with
    | .error e => ["❌ Error: " ++ e]
    | .ok r =>
        if r.failedEntryCount > 0 then
          ["❌ Failed: " ++ reprEntries r.entries]
        else
          ("✅ Published: " ++ detail_type ++ " from " ++ source) ::
            (match r.entries with
             | [] => ["❌ Error: list index out of range"]
             | ent :: _ =>
                 match ent.eventId with
                 | some id => ["   Event ID: " ++ id]
                 | none => ["❌ Error: \x27EventId\x27"])
  ⟨[entry], out, detail⟩

/-- Python `.upper()` on a string: uppercase every character. -/
def pyUpper (s : String) : String := String.mk (s.data.map Char.toUpper)

/-- Python `[:8]` on a string: the first 8 characters. -/
def pySlice8 (s : String) : String := String.mk (s.data.take 8)

/-- The order identifier `f"ORD-{uuid.uuid4().hex[:8].upper()}"`, as a
function of the 32-character uuid hex string. -/
def mkOrderId (hex : String) : String := "ORD-" ++ pyUpper (pySlice8 hex)

/-- The tracking identifier `f"TRK-{uuid.uuid4().hex[:8].upper()}"`, as a
function of the 32-character uuid hex string. -/
def mkTrackingId (hex : String) : String := "TRK-" ++ pyUpper (pySlice8 hex)

/-- The `order_detail` payload of the order-created event. -/
def orderDetail (oid : String) : JVal :=
  .jobj [("orderId", .jstr oid),
         ("customerId", .jstr "C-5678"),
         ("value", .jdec 1499 1),
         ("currency", .jstr "USD"),
         ("items", .jarr [.jobj [("productId", .jstr "P-123"), ("quantity", .jint 2)]])]

/-- The `payment_detail` payload of the payment-failed event. -/
def paymentDetail (oid : String) : JVal :=
  .jobj [("orderId", .jstr oid),
         ("reason", .jstr "INSUFFICIENT_FUNDS"),
         ("severity", .jstr "critical"),
         ("retryCount", .jint 2)]

/-- The `shipment_detail` payload of the shipment-created event. -/
def shipmentDetail (oid trk : String) : JVal :=
  .jobj [("orderId", .jstr oid),
         ("carrier", .jstr "DHL"),
         ("trackingId", .jstr trk),
         ("estimatedDelivery", .jstr "2025-09-15")]

/-- The whole trace of one run: the three call records and all printed
lines, in order. -/
structure RunTrace where
  calls : List CallRecord
  output : List String

/-- The `"-" * 60` separator line. -/
def dashes : String := String.mk (List.replicate 60 '-')

/-- The closing banner printed after the three publish calls. -/
def closingLines : List String :=
  [dashes,
   "🎉 All events published successfully!",
   "📋 Expected routing:",
   "   • OrderCreated → topic-orders + q-orders",
   "   • PaymentFailed → topic-alerts",
   "   • ShipmentCreated → q-shipments"]

/-- `publish_sample_events()`: generate the order id once, publish the three
fixed sample events in order through the client (consulted once per call,
in call order), and print the banner, the per-call lines and the closing
summary.  `hexO` and `hexT` are the two uuid hex draws, `t i` the timestamp
of call `i`, and `client i` the client behavior on call `i`. -/
def publish_sample_events (hexO hexT : String) (t : Nat → Nat)
    (client : Nat → ClientCall) : RunTrace :=
  let order_id := mkOrderId hexO
  let c1 := publish_event (client 0) (t 0) "app.orders" "OrderCreated" (orderDetail order_id)
  let c2 := publish_event (client 1) (t 1) "app.payments" "PaymentFailed" (paymentDetail order_id)
  let c3 := publish_event (client 2) (t 2) "app.shipping" "ShipmentCreated"
      (shipmentDetail order_id (mkTrackingId hexT))
  ⟨[c1, c2, c3],
   ["🚀 Publishing events to EventBridge bus: " ++ BUS_NAME,
    dashes,
    "📦 Order ID: " ++ order_id,
    dashes]
   ++ c1.output ++ c2.output ++ c3.output ++ closingLines⟩

/-- The `if __name__ == "__main__"` entry point: it reads no arguments and
runs `publish_sample_events()`.  It is an `Except` computation so that an
exception escaping to the top level (which would make the interpreter exit
nonzero) is representable; the body introduces none. -/
def script_main (_argv : List String) (hexO hexT : String) (t : Nat → Nat)
    (client : Nat → ClientCall) : Except String RunTrace :=
  Except.ok (publish_sample_events hexO hexT t client)

/-- Process exit status of a run: 0 when the entry point completes, 1 when
an exception escapes it. -/
def exitCode (argv : List String) (hexO hexT : String) (t : Nat → Nat)
    (client : Nat → ClientCall) : Nat :=
  match script_main argv hexO hexT t client with
  | .ok _ => 0
  | .error _ => 1

/-! ### Character classes and field lookup -/

/-- Lowercase hexadecimal digit (`0`–`9`, `a`–`f`), the alphabet of
`uuid4().hex`. -/
def isLowerHex (c : Char) : Bool :=
  (decide (48 ≤ c.toNat) && decide (c.toNat ≤ 57)) ||
    (decide (97 ≤ c.toNat) && decide (c.toNat ≤ 102))

/-- Uppercase hexadecimal digit (`0`–`9`, `A`–`F`). -/
def isUpperHex (c : Char) : Bool :=
  (decide (48 ≤ c.toNat) && decide (c.toNat ≤ 57)) ||
    (decide (65 ≤ c.toNat) && decide (c.toNat ≤ 70))

/-- Value of a key in a JSON object (first occurrence). -/
def getField (k : String) : JVal → Option JVal
  | .jobj fs => fs.lookup k
  | _ => none

/-! ### Wellformed values

The wellformedness the inversion argument needs: plain strings, nonnegative
numbers, at least one fraction digit in decimals.  All three sample details
satisfy it. -/

mutual

/-- Wellformed JSON value. -/
def goodV : JVal → Bool
  | .jstr s => s.data.all plainChar
  | .jint i => match i with | .ofNat _ => true | .negSucc _ => false
  | .jdec m p => (match m with | .ofNat _ => true | .negSucc _ => false) && decide (1 ≤ p)
  | .jarr vs => goodItems vs
  | .jobj fs => goodFields fs

/-- Wellformed item list. -/
def goodItems : List JVal → Bool
  | [] => true
  | v :: vs => goodV v && goodItems vs

/-- Wellformed field list. -/
def goodFields : List (String × JVal) → Bool
  | [] => true
  | (k, v) :: fs => k.data.all plainChar && goodV v && goodFields fs

end

/-- What may legally follow a serialized value inside a document: nothing,
or a separator / closing bracket.  (Numbers are delimited only by what
follows them, so the inversion lemmas need this.) -/
def Bdry : List Char → Prop
  | [] => True
  | c :: _ => c = ',' ∨ c = ']' ∨ c = '\x7d'

mutual

/-- Recursion-depth bound of the parser on a serialized value. -/
def sizeV : JVal → Nat
  | .jstr _ => 1
  | .jint _ => 1
  | .jdec _ _ => 1
  | .jarr vs => sizeItems vs + 1
  | .jobj fs => sizeFields fs + 1

/-- Recursion-depth bound of the parser on serialized items. -/
def sizeItems : List JVal → Nat
  | [] => 1
  | v :: vs => max (sizeV v) (sizeItems vs) + 1

/-- Recursion-depth bound of the parser on serialized fields. -/
def sizeFields : List (String × JVal) → Nat
  | [] => 1
  | (_, v) :: fs => max (sizeV v) (sizeFields fs) + 1

end

/-! ## Theorems -/

set_option maxRecDepth 10000

/-! ### Character helpers -/

/-- `Char.ofNat` applied to a valid codepoint round-trips through `toNat`. -/
theorem char_toNat_ofNat_valid (n : Nat) (h : n.isValidChar) : (Char.ofNat n).toNat = n := by
  unfold Char.ofNat
  rw [dif_pos h]
  rfl

/-- Codepoint of `Char.toUpper`. -/
theorem toNat_toUpper (c : Char) :
    (Char.toUpper c).toNat = if 97 ≤ c.toNat ∧ c.toNat ≤ 122 then c.toNat - 32 else c.toNat := by
  unfold Char.toUpper
  split
  · next h =>
      rw [if_pos ⟨h.1, h.2⟩]
      exact char_toNat_ofNat_valid _ (Or.inl (by omega))
  · next h =>
      rw [if_neg (fun hc => h ⟨hc.1, hc.2⟩)]

/-- Characters with equal codepoints are equal. -/
theorem toNat_inj {c d : Char} (h : c.toNat = d.toNat) : c = d := by
  have := congrArg Char.ofNat h
  rwa [Char.ofNat_toNat, Char.ofNat_toNat] at this

/-- Codepoint reading of `isLowerHex`. -/
theorem lowerHex_iff {c : Char} :
    isLowerHex c = true ↔ (48 ≤ c.toNat ∧ c.toNat ≤ 57) ∨ (97 ≤ c.toNat ∧ c.toNat ≤ 102) := by
  simp [isLowerHex]

/-- Uppercasing a lowercase hex digit yields an uppercase hex digit. -/
theorem upperHex_of_toUpper_lowerHex {c : Char} (h : isLowerHex c = true) :
    isUpperHex (Char.toUpper c) = true := by
  rw [lowerHex_iff] at h
  have ht := toNat_toUpper c
  simp only [isUpperHex]
  rcases h with h | h
  · rw [if_neg (by omega)] at ht
    simp [ht]
    omega
  · rw [if_pos (by omega)] at ht
    simp [ht]
    omega

/-- `Char.toUpper` is injective on lowercase hex digits. -/
theorem toUpper_inj_on_lowerHex {c d : Char} (hc : isLowerHex c = true)
    (hd : isLowerHex d = true) (h : Char.toUpper c = Char.toUpper d) : c = d := by
  rw [lowerHex_iff] at hc hd
  have h2 : (Char.toUpper c).toNat = (Char.toUpper d).toNat := congrArg Char.toNat h
  rw [toNat_toUpper, toNat_toUpper] at h2
  apply toNat_inj
  rcases hc with hc | hc <;> rcases hd with hd | hd
  · rwa [if_neg (by omega), if_neg (by omega)] at h2
  · rw [if_neg (by omega), if_pos (by omega)] at h2
    omega
  · rw [if_pos (by omega), if_neg (by omega)] at h2
    omega
  · rw [if_pos (by omega), if_pos (by omega)] at h2
    omega

/-- Mapping `Char.toUpper` is injective on lists of lowercase hex digits. -/
theorem map_toUpper_inj : ∀ l1 l2 : List Char, (∀ c ∈ l1, isLowerHex c = true) →
    (∀ c ∈ l2, isLowerHex c = true) → l1.map Char.toUpper = l2.map Char.toUpper → l1 = l2
  | [], [], _, _, _ => rfl
  | [], _ :: _, _, _, h => by simp at h
  | _ :: _, [], _, _, h => by simp at h
  | a :: l1, b :: l2, ha, hb, h => by
      simp only [List.map_cons, List.cons.injEq] at h
      have hab := toUpper_inj_on_lowerHex (ha a (by simp)) (hb b (by simp)) h.1
      have := map_toUpper_inj l1 l2 (fun c hc => ha c (by simp [hc]))
        (fun c hc => hb c (by simp [hc])) h.2
      simp [hab, this]

/-- Character-level shape of the generated order identifier. -/
theorem mkOrderId_data (h1 : String) :
    (mkOrderId h1).data = 'O' :: 'R' :: 'D' :: '-' :: (h1.data.take 8).map Char.toUpper := rfl

/-! ### Decimal digit rendering -/

/-- `Nat.toDigitsCore` only prepends to its accumulator. -/
theorem toDigitsCore_acc : ∀ (fuel n : Nat) (acc : List Char),
    Nat.toDigitsCore 10 fuel n acc = Nat.toDigitsCore 10 fuel n [] ++ acc := by
  intro fuel
  induction fuel with
  | zero => intro n acc; rfl
  | succ f ih =>
      intro n acc
      simp only [Nat.toDigitsCore]
      split
      · rfl
      · rw [ih (n / 10) (Nat.digitChar (n % 10) :: acc), ih (n / 10) [Nat.digitChar (n % 10)]]
        simp

/-- `Nat.toDigitsCore` does not depend on the fuel once it dominates `n`. -/
theorem toDigitsCore_fuel : ∀ (f g n : Nat), n < f → n < g →
    Nat.toDigitsCore 10 f n [] = Nat.toDigitsCore 10 g n [] := by
  intro f
  induction f with
  | zero => intro g n h; omega
  | succ f ih =>
      intro g n hf hg
      match g, hg with
      | g + 1, hg =>
        simp only [Nat.toDigitsCore]
        split
        · rfl
        · next hne =>
            rw [toDigitsCore_acc f, toDigitsCore_acc g]
            have hlt : n / 10 < n := Nat.div_lt_self (by omega) (by omega)
            rw [ih g (n / 10) (by omega) (by omega)]

/-- One-digit numbers render as their digit character. -/
theorem toDigits_lt10 (n : Nat) (h : n < 10) : Nat.toDigits 10 n = [Nat.digitChar n] := by
  unfold Nat.toDigits
  simp only [Nat.toDigitsCore]
  rw [if_pos (by omega), Nat.mod_eq_of_lt h]

/-- Unfolding step of the decimal rendering. -/
theorem toDigits_step (n : Nat) (h : 10 ≤ n) :
    Nat.toDigits 10 n = Nat.toDigits 10 (n / 10) ++ [Nat.digitChar (n % 10)] := by
  conv_lhs => unfold Nat.toDigits
  simp only [Nat.toDigitsCore]
  rw [if_neg (by omega)]
  rw [toDigitsCore_acc]
  congr 1
  unfold Nat.toDigits
  have hlt : n / 10 < n := Nat.div_lt_self (by omega) (by omega)
  exact toDigitsCore_fuel n (n / 10 + 1) (n / 10) (by omega) (by omega)

/-- Codepoint of a digit character. -/
theorem digitChar_toNat (k : Nat) (h : k < 10) : (Nat.digitChar k).toNat = 48 + k := by
  interval_cases k <;> decide

/-- Folding the rendered digits of `n` recovers `n`. -/
theorem digitsToNat_toDigits (n : Nat) : digitsToNat (Nat.toDigits 10 n) = n := by
  induction n using Nat.strong_induction_on with
  | _ n ih =>
    by_cases h : n < 10
    · rw [toDigits_lt10 n h]
      simp [digitsToNat, digitChar_toNat n h]
    · push_neg at h
      rw [toDigits_step n h]
      have hlt : n / 10 < n := Nat.div_lt_self (by omega) (by omega)
      have hA := ih (n / 10) hlt
      simp only [digitsToNat, List.foldl_append, List.foldl_cons, List.foldl_nil] at hA ⊢
      rw [hA, digitChar_toNat (n % 10) (by omega)]
      omega

/-- Rendered digits are digit characters. -/
theorem toDigits_mem_digit (n : Nat) :
    ∀ c ∈ Nat.toDigits 10 n, 48 ≤ c.toNat ∧ c.toNat ≤ 57 := by
  induction n using Nat.strong_induction_on with
  | _ n ih =>
    by_cases h : n < 10
    · rw [toDigits_lt10 n h]
      intro c hc
      simp at hc
      subst hc
      rw [digitChar_toNat n h]
      omega
    · push_neg at h
      rw [toDigits_step n h]
      intro c hc
      rcases List.mem_append.mp hc with hc | hc
      · exact ih (n / 10) (Nat.div_lt_self (by omega) (by omega)) c hc
      · simp at hc
        subst hc
        rw [digitChar_toNat (n % 10) (by omega)]
        omega

/-- The rendering of a number is never empty. -/
theorem toDigits_ne_nil (n : Nat) : Nat.toDigits 10 n ≠ [] := by
  by_cases h : n < 10
  · rw [toDigits_lt10 n h]; simp
  · rw [toDigits_step n (by omega)]; simp

/-- A number below `10 ^ p` renders in at most `p` digits. -/
theorem toDigits_len_le (n : Nat) : ∀ p : Nat, 1 ≤ p → n < 10 ^ p →
    (Nat.toDigits 10 n).length ≤ p := by
  induction n using Nat.strong_induction_on with
  | _ n ih =>
    intro p hp hb
    by_cases h : n < 10
    · rw [toDigits_lt10 n h]
      simpa using hp
    · push_neg at h
      rw [toDigits_step n h]
      have hp2 : 2 ≤ p := by
        by_contra hc
        have : p = 1 := by omega
        subst this
        simp at hb
        omega
      have hdiv : n / 10 < 10 ^ (p - 1) := by
        have : (10 : Nat) ^ p = 10 ^ (p - 1) * 10 := by
          rw [← Nat.pow_succ]
          congr 1
          omega
        rw [Nat.div_lt_iff_lt_mul (by omega)]
        omega
      have := ih (n / 10) (Nat.div_lt_self (by omega) (by omega)) (p - 1) (by omega) hdiv
      simp only [List.length_append, List.length_cons, List.length_nil]
      omega

/-- Leading zero characters contribute nothing to the digit fold. -/
theorem foldl_zeros : ∀ k : Nat,
    List.foldl (fun a c => 10 * a + (c.toNat - 48)) 0 (List.replicate k '0') = 0 := by
  intro k
  induction k with
  | zero => rfl
  | succ k ih => simpa [List.replicate_succ] using ih

/-- Zero-padding does not change the folded value. -/
theorem digitsToNat_padZeros (p : Nat) (ds : List Char) :
    digitsToNat (padZeros p ds) = digitsToNat ds := by
  simp only [digitsToNat, padZeros, List.foldl_append, foldl_zeros]

/-- Zero-padding to `p` yields length `p`. -/
theorem padZeros_len (p : Nat) (ds : List Char) (h : ds.length ≤ p) :
    (padZeros p ds).length = p := by
  simp [padZeros]
  omega

/-- Zero-padding preserves digit-character membership. -/
theorem padZeros_digit (p : Nat) (ds : List Char)
    (h : ∀ c ∈ ds, 48 ≤ c.toNat ∧ c.toNat ≤ 57) :
    ∀ c ∈ padZeros p ds, 48 ≤ c.toNat ∧ c.toNat ≤ 57 := by
  intro c hc
  rcases List.mem_append.mp hc with hc | hc
  · have : c = '0' := List.eq_of_mem_replicate hc
    subst this
    decide
  · exact h c hc

/-! ### Scanning helpers -/

/-- `takeWhile`/`dropWhile` across a satisfied block followed by a
non-satisfying head. -/
theorem takeWhile_all_append (p : Char → Bool) : ∀ l r : List Char,
    (∀ c ∈ l, p c = true) → (∀ c, r.head? = some c → p c = false) →
    (l ++ r).takeWhile p = l ∧ (l ++ r).dropWhile p = r := by
  intro l
  induction l with
  | nil =>
      intro r _ hr
      cases r with
      | nil => exact ⟨rfl, rfl⟩
      | cons c t =>
          have := hr c rfl
          simp [List.takeWhile_cons, List.dropWhile_cons, this]
  | cons a l ih =>
      intro r hl hr
      have ha := hl a (by simp)
      have := ih r (fun c hc => hl c (by simp [hc])) hr
      simp [List.takeWhile_cons, List.dropWhile_cons, ha, this.1, this.2]

/-- Boolean characterization of `plainChar`. -/
theorem plainChar_iff {c : Char} :
    plainChar c = true ↔ c ≠ '"' ∧ c ≠ '\\' ∧ 32 ≤ c.toNat := by
  simp [plainChar, and_assoc]

/-- `readStr` inverts the serialization of a plain string body. -/
theorem readStr_plain : ∀ (s rest : List Char), (∀ c ∈ s, plainChar c = true) →
    readStr (s ++ '"' :: rest) = some (s, rest) := by
  intro s
  induction s with
  | nil => intro rest _; rfl
  | cons c cs ih =>
      intro rest hs
      have hc := plainChar_iff.mp (hs c (by simp))
      rw [List.cons_append, readStr.eq_def]
      split
      · next heq => exact absurd heq (by simp)
      · next heq =>
          injection heq with h1 _
          exact absurd h1 hc.1
      · next heq =>
          injection heq with h1 _
          exact absurd h1 hc.2.1
      · next heq =>
          injection heq with h1 h2
          subst h1
          subst h2
          rw [if_neg (by omega), ih rest (fun d hd => hs d (by simp [hd]))]
          rfl

/-- A character whose codepoint avoids the whitespace codepoints is not
JSON whitespace. -/
theorem isWs_false_of_toNat {c : Char}
    (h : c.toNat ≠ 32 ∧ c.toNat ≠ 10 ∧ c.toNat ≠ 9 ∧ c.toNat ≠ 13) : isWs c = false := by
  simp only [isWs, Bool.or_eq_false_iff, decide_eq_false_iff_not]
  refine ⟨⟨⟨?_, ?_⟩, ?_⟩, ?_⟩ <;> rintro rfl
  · exact h.1 (by decide)
  · exact h.2.1 (by decide)
  · exact h.2.2.1 (by decide)
  · exact h.2.2.2 (by decide)

/-- Skipping whitespace leaves a non-whitespace head alone. -/
theorem skipWs_cons_of_not {c : Char} (cs : List Char) (h : isWs c = false) :
    skipWs (c :: cs) = c :: cs := by
  simp [skipWs, List.dropWhile_cons, h]

/-- Skipping whitespace absorbs a leading space. -/
theorem skipWs_sp (cs : List Char) : skipWs (' ' :: cs) = skipWs cs := by
  simp [skipWs, List.dropWhile_cons, show isWs ' ' = true from rfl]

/-- The value parser ignores a leading space. -/
theorem parseVal_sp (f : Nat) (cs : List Char) : parseVal f (' ' :: cs) = parseVal f cs := by
  cases f with
  | zero => rfl
  | succ f =>
      simp only [parseVal]
      rw [skipWs_sp]

/-- The item parser ignores a leading space. -/
theorem parseItems_sp (f : Nat) (cs : List Char) :
    parseItems f (' ' :: cs) = parseItems f cs := by
  cases f with
  | zero => rfl
  | succ f =>
      simp only [parseItems]
      rw [parseVal_sp]

/-- The field parser ignores a leading space. -/
theorem parseFields_sp (f : Nat) (cs : List Char) :
    parseFields f (' ' :: cs) = parseFields f cs := by
  cases f with
  | zero => rfl
  | succ f =>
      simp only [parseFields]
      rw [skipWs_sp]

/-- Boolean characterization of `isDigitC`. -/
theorem isDigitC_iff {c : Char} : isDigitC c = true ↔ 48 ≤ c.toNat ∧ c.toNat ≤ 57 := by
  simp [isDigitC]

/-- A legal value boundary starts with a separator or a closing bracket:
neither a digit nor a decimal point. -/
theorem bdry_facts {rest : List Char} (h : Bdry rest) :
    ∀ c, rest.head? = some c → isDigitC c = false ∧ c ≠ '.' := by
  cases rest with
  | nil => intro c hc; simp at hc
  | cons a t =>
      intro c hc
      simp at hc
      subst hc
      unfold Bdry at h
      rcases h with rfl | rfl | rfl <;> exact ⟨by decide, by decide⟩

/-- `readNum` inverts the rendering of a natural number at a boundary. -/
theorem readNum_nat (n : Nat) (rest : List Char) (hb : Bdry rest) :
    readNum (Nat.toDigits 10 n ++ rest) = some (.jint (Int.ofNat n), rest) := by
  obtain ⟨c, t, hct⟩ : ∃ c t, Nat.toDigits 10 n = c :: t := by
    cases hh : Nat.toDigits 10 n with
    | nil => exact absurd hh (toDigits_ne_nil n)
    | cons c t => exact ⟨c, t, rfl⟩
  have hcd : 48 ≤ c.toNat ∧ c.toNat ≤ 57 := toDigits_mem_digit n c (by rw [hct]; simp)
  have htw := takeWhile_all_append isDigitC (Nat.toDigits 10 n) rest
    (fun d hd => isDigitC_iff.mpr (toDigits_mem_digit n d hd))
    (fun d hd => (bdry_facts hb d hd).1)
  unfold readNum
  rw [hct, List.cons_append]
  split
  · next heq =>
      injection heq with h1 _
      rw [h1] at hcd
      exact absurd hcd (by decide)
  · next heq =>
      rw [show c :: (t ++ rest) = Nat.toDigits 10 n ++ rest by rw [hct, List.cons_append]]
      simp only [htw.1, htw.2]
      rw [if_neg (by simp [List.isEmpty_iff, toDigits_ne_nil n])]
      split
      · exact absurd rfl (bdry_facts hb '.' rfl).2
      · next heq2 =>
          simp [digitsToNat_toDigits n]

/-- `readNum` inverts the rendering of a nonnegative decimal at a
boundary. -/
theorem readNum_dec (m p : Nat) (hp : 1 ≤ p) (rest : List Char) (hb : Bdry rest) :
    readNum (decChars (Int.ofNat m) p ++ rest) = some (.jdec (Int.ofNat m) p, rest) := by
  have hBlt : m % 10 ^ p < 10 ^ p := Nat.mod_lt _ (Nat.pos_pow_of_pos p (by omega))
  have hBlen : (Nat.toDigits 10 (m % 10 ^ p)).length ≤ p :=
    toDigits_len_le (m % 10 ^ p) p hp hBlt
  have hplen : (padZeros p (Nat.toDigits 10 (m % 10 ^ p))).length = p :=
    padZeros_len p _ hBlen
  have hfrac : ∀ c ∈ padZeros p (Nat.toDigits 10 (m % 10 ^ p)),
      48 ≤ c.toNat ∧ c.toNat ≤ 57 :=
    padZeros_digit p _ (toDigits_mem_digit (m % 10 ^ p))
  have hshape : decChars (Int.ofNat m) p ++ rest =
      Nat.toDigits 10 (m / 10 ^ p) ++
        ('.' :: (padZeros p (Nat.toDigits 10 (m % 10 ^ p)) ++ rest)) := by
    simp [decChars, natChars, List.append_assoc]
  obtain ⟨c, t, hct⟩ : ∃ c t, Nat.toDigits 10 (m / 10 ^ p) = c :: t := by
    cases hh : Nat.toDigits 10 (m / 10 ^ p) with
    | nil => exact absurd hh (toDigits_ne_nil _)
    | cons c t => exact ⟨c, t, rfl⟩
  have hcd : 48 ≤ c.toNat ∧ c.toNat ≤ 57 := toDigits_mem_digit _ c (by rw [hct]; simp)
  have htw := takeWhile_all_append isDigitC (Nat.toDigits 10 (m / 10 ^ p))
    ('.' :: (padZeros p (Nat.toDigits 10 (m % 10 ^ p)) ++ rest))
    (fun d hd => isDigitC_iff.mpr (toDigits_mem_digit _ d hd))
    (fun d hd => by simp at hd; subst hd; decide)
  have htw2 := takeWhile_all_append isDigitC (padZeros p (Nat.toDigits 10 (m % 10 ^ p))) rest
    (fun d hd => isDigitC_iff.mpr (hfrac d hd))
    (fun d hd => (bdry_facts hb d hd).1)
  rw [hshape]
  unfold readNum
  rw [hct, List.cons_append]
  split
  · next heq =>
      injection heq with h1 _
      rw [h1] at hcd
      exact absurd hcd (by decide)
  · next heq =>
      rw [show c :: (t ++ ('.' :: (padZeros p (Nat.toDigits 10 (m % 10 ^ p)) ++ rest))) =
          Nat.toDigits 10 (m / 10 ^ p) ++
            ('.' :: (padZeros p (Nat.toDigits 10 (m % 10 ^ p)) ++ rest)) by
        rw [hct, List.cons_append]]
      simp only [htw.1, htw.2]
      rw [if_neg (by simp [List.isEmpty_iff, toDigits_ne_nil])]
      simp only [htw2.1, htw2.2]
      rw [if_neg (by
        simp only [List.isEmpty_iff]
        intro hh
        rw [hh] at hplen
        simp at hplen
        omega)]
      have hds : digitsToNat (Nat.toDigits 10 (m / 10 ^ p)) = m / 10 ^ p :=
        digitsToNat_toDigits _
      have hfs : digitsToNat (padZeros p (Nat.toDigits 10 (m % 10 ^ p))) = m % 10 ^ p := by
        rw [digitsToNat_padZeros, digitsToNat_toDigits]
      rw [hds, hfs, hplen]
      have h0 : 10 ^ p * (m / 10 ^ p) + m % 10 ^ p = m := Nat.div_add_mod m (10 ^ p)
      have : m / 10 ^ p * 10 ^ p + m % 10 ^ p = m := by rw [Nat.mul_comm] at h0; exact h0
      simp [this]

/-! ### Parser inversion -/


theorem escChar_plain {c : Char} (h : plainChar c = true) : escChar c = [c] := by
  obtain ⟨h1, h2, h3⟩ := plainChar_iff.mp h
  have hn : c ≠ '\n' := by rintro rfl; exact absurd h3 (by decide)
  have ht : c ≠ '\t' := by rintro rfl; exact absurd h3 (by decide)
  have hr : c ≠ '\r' := by rintro rfl; exact absurd h3 (by decide)
  unfold escChar
  rw [if_neg h1, if_neg h2, if_neg hn, if_neg ht, if_neg hr, if_neg (by omega),
    if_neg (by omega), if_neg (by omega)]

theorem strBody_plain : ∀ l : List Char, (∀ c ∈ l, plainChar c = true) → strBody l = l := by
  intro l
  induction l with
  | nil => intro _; rfl
  | cons c cs ih =>
      intro hl
      rw [strBody, escChar_plain (hl c (by simp)), ih (fun d hd => hl d (by simp [hd]))]
      rfl

theorem stringMk_data (s : String) : String.mk s.data = s := by
  obtain ⟨d⟩ := s
  rfl

theorem serItems_cons_shape (v : JVal) (vs : List JVal) :
    ∃ more, serItems (v :: vs) = serChars v ++ more := by
  cases vs with
  | nil => exact ⟨[], by simp [serItems]⟩
  | cons w vs => exact ⟨',' :: ' ' :: serItems (w :: vs), rfl⟩

theorem serFields_cons_shape (k : String) (v : JVal) (fs : List (String × JVal)) :
    ∃ more, serFields ((k, v) :: fs) = '"' :: more := by
  cases fs with
  | nil => exact ⟨strBody k.data ++ '"' :: ':' :: ' ' :: serChars v, rfl⟩
  | cons g fs => exact ⟨(strBody k.data ++ '"' :: ':' :: ' ' :: serChars v) ++
      ',' :: ' ' :: serFields (g :: fs), rfl⟩

theorem serChars_head (v : JVal) (hg : goodV v = true) :
    ∃ c t, serChars v = c :: t ∧ isWs c = false ∧ c ≠ ']' := by
  cases v with
  | jstr s => exact ⟨'"', _, rfl, by decide, by decide⟩
  | jint i =>
      cases i with
      | ofNat n =>
          obtain ⟨c, t, hct⟩ : ∃ c t, Nat.toDigits 10 n = c :: t := by
            cases hh : Nat.toDigits 10 n with
            | nil => exact absurd hh (toDigits_ne_nil n)
            | cons c t => exact ⟨c, t, rfl⟩
          have hcd := toDigits_mem_digit n c (by rw [hct]; simp)
          refine ⟨c, t, hct, isWs_false_of_toNat (by omega), ?_⟩
          rintro rfl
          exact absurd hcd (by decide)
      | negSucc n => simp [goodV] at hg
  | jdec m p =>
      cases m with
      | ofNat m' =>
          obtain ⟨c, t, hct⟩ : ∃ c t, Nat.toDigits 10 (m' / 10 ^ p) = c :: t := by
            cases hh : Nat.toDigits 10 (m' / 10 ^ p) with
            | nil => exact absurd hh (toDigits_ne_nil _)
            | cons c t => exact ⟨c, t, rfl⟩
          have hcd := toDigits_mem_digit _ c (by rw [hct]; simp)
          refine ⟨c, t ++ '.' :: padZeros p (Nat.toDigits 10 (m' % 10 ^ p)), ?_,
            isWs_false_of_toNat (by omega), ?_⟩
          · show decChars (Int.ofNat m') p = _
            simp [decChars, natChars, hct]
          · rintro rfl
            exact absurd hcd (by decide)
      | negSucc m' => simp [goodV] at hg
  | jarr vs => exact ⟨'[', _, rfl, by decide, by decide⟩
  | jobj fs => exact ⟨'\x7b', _, rfl, by decide, by decide⟩

theorem parseVal_quote (x : List Char) (f : Nat) :
    parseVal (f + 1) ('"' :: x) = (readStr x).map fun p => (.jstr (String.mk p.1), p.2) := by
  simp only [parseVal]
  rw [skipWs_cons_of_not _ (by decide)]
  rfl

theorem parseVal_lbrack (x : List Char) (f : Nat) :
    parseVal (f + 1) ('[' :: x) = (match skipWs x with
      | ']' :: r2 => some (.jarr [], r2)
      | _ => (parseItems f x).map fun p => (.jarr p.1, p.2)) := by
  simp only [parseVal]
  rw [skipWs_cons_of_not _ (by decide)]
  rfl

theorem parseVal_lbrace (x : List Char) (f : Nat) :
    parseVal (f + 1) ('\x7b' :: x) = (match skipWs x with
      | '\x7d' :: r2 => some (.jobj [], r2)
      | _ => (parseFields f x).map fun p => (.jobj p.1, p.2)) := by
  simp only [parseVal]
  rw [skipWs_cons_of_not _ (by decide)]
  rfl

theorem parseVal_digit {c : Char} (x : List Char) (f : Nat)
    (hc : 48 ≤ c.toNat ∧ c.toNat ≤ 57) :
    parseVal (f + 1) (c :: x) = readNum (c :: x) := by
  simp only [parseVal]
  rw [skipWs_cons_of_not _ (isWs_false_of_toNat (by omega))]
  split
  · next heq => exact absurd heq (by simp)
  · next heq =>
      injection heq with h1 _
      rw [h1] at hc
      exact absurd hc (by decide)
  · next heq =>
      injection heq with h1 _
      rw [h1] at hc
      exact absurd hc (by decide)
  · next heq =>
      injection heq with h1 _
      rw [h1] at hc
      exact absurd hc (by decide)
  · next heq =>
      injection heq with h1 h2
      subst h1
      subst h2
      rw [if_pos]
      simp [isDigitC_iff.mpr hc]



mutual

theorem inv_val (v : JVal) (rest : List Char) (f : Nat) (hg : goodV v = true)
    (hb : Bdry rest) (hf : sizeV v < f) :
    parseVal f (serChars v ++ rest) = some (v, rest) := by
  cases f with
  | zero => exact absurd hf (Nat.not_lt_zero _)
  | succ f =>
  cases v with
  | jstr s =>
      have hplain : ∀ c ∈ s.data, plainChar c = true := by
        simpa [goodV, List.all_eq_true] using hg
      have hsh : serChars (.jstr s) ++ rest = '"' :: (s.data ++ '"' :: rest) := by
        simp [serChars, strBody_plain s.data hplain]
      rw [hsh, parseVal_quote, readStr_plain s.data rest hplain]
      simp [stringMk_data]
  | jint i =>
      cases i with
      | ofNat n =>
          obtain ⟨c, t, hct⟩ : ∃ c t, Nat.toDigits 10 n = c :: t := by
            cases hh : Nat.toDigits 10 n with
            | nil => exact absurd hh (toDigits_ne_nil n)
            | cons c t => exact ⟨c, t, rfl⟩
          have hcd := toDigits_mem_digit n c (by rw [hct]; simp)
          have hsh : serChars (.jint (Int.ofNat n)) ++ rest = c :: (t ++ rest) := by
            simp [serChars, intChars, natChars, hct]
          rw [hsh, parseVal_digit _ f hcd,
            show c :: (t ++ rest) = Nat.toDigits 10 n ++ rest by rw [hct, List.cons_append]]
          exact readNum_nat n rest hb
      | negSucc n => simp [goodV] at hg
  | jdec m p =>
      cases m with
      | ofNat m' =>
          have hp : 1 ≤ p := by
            have := hg
            simp [goodV] at this
            omega
          obtain ⟨c, t, hct⟩ : ∃ c t, Nat.toDigits 10 (m' / 10 ^ p) = c :: t := by
            cases hh : Nat.toDigits 10 (m' / 10 ^ p) with
            | nil => exact absurd hh (toDigits_ne_nil _)
            | cons c t => exact ⟨c, t, rfl⟩
          have hcd := toDigits_mem_digit _ c (by rw [hct]; simp)
          have hsh : serChars (.jdec (Int.ofNat m') p) ++ rest =
              c :: ((t ++ '.' :: padZeros p (Nat.toDigits 10 (m' % 10 ^ p))) ++ rest) := by
            simp [serChars, decChars, natChars, hct]
          rw [hsh, parseVal_digit _ f hcd,
            show c :: ((t ++ '.' :: padZeros p (Nat.toDigits 10 (m' % 10 ^ p))) ++ rest) =
              decChars (Int.ofNat m') p ++ rest by
                simp [decChars, natChars, hct]]
          exact readNum_dec m' p hp rest hb
      | negSucc m' => simp [goodV] at hg
  | jarr vs =>
      cases vs with
      | nil =>
          have hsh : serChars (.jarr []) ++ rest = '[' :: (']' :: rest) := by
            simp [serChars, serItems]
          rw [hsh, parseVal_lbrack]
          rw [skipWs_cons_of_not _ (by decide)]
          rfl
      | cons v vs =>
          have hgi : goodItems (v :: vs) = true := by simpa [goodV] using hg
          have hgv : goodV v = true := by
            simp [goodItems, Bool.and_eq_true] at hgi
            exact hgi.1
          obtain ⟨c, t, hct, hws, hne⟩ := serChars_head v hgv
          obtain ⟨more, hmore⟩ := serItems_cons_shape v vs
          have hsh : serChars (.jarr (v :: vs)) ++ rest =
              '[' :: (serItems (v :: vs) ++ ']' :: rest) := by
            simp [serChars, List.append_assoc]
          have hhead : serItems (v :: vs) ++ ']' :: rest =
              c :: (t ++ (more ++ ']' :: rest)) := by
            rw [hmore, hct]
            simp [List.append_assoc]
          rw [hsh, parseVal_lbrack]
          split
          · next heq =>
              rw [hhead, skipWs_cons_of_not _ hws] at heq
              injection heq with h1 _
              exact absurd h1 hne
          · next heq =>
              rw [inv_items (v :: vs) rest f (by simp) hgi
                (by simp [sizeV] at hf; omega)]
              rfl
  | jobj fs =>
      cases fs with
      | nil =>
          have hsh : serChars (.jobj []) ++ rest = '\x7b' :: ('\x7d' :: rest) := by
            simp [serChars, serFields]
          rw [hsh, parseVal_lbrace]
          rw [skipWs_cons_of_not _ (by decide)]
          rfl
      | cons kv fs =>
          obtain ⟨k, v⟩ := kv
          have hgf : goodFields ((k, v) :: fs) = true := by simpa [goodV] using hg
          obtain ⟨more, hmore⟩ := serFields_cons_shape k v fs
          have hsh : serChars (.jobj ((k, v) :: fs)) ++ rest =
              '\x7b' :: (serFields ((k, v) :: fs) ++ '\x7d' :: rest) := by
            simp [serChars, List.append_assoc]
          have hhead : serFields ((k, v) :: fs) ++ '\x7d' :: rest =
              '"' :: (more ++ '\x7d' :: rest) := by
            rw [hmore]
            rfl
          rw [hsh, parseVal_lbrace]
          split
          · next heq =>
              rw [hhead, skipWs_cons_of_not _ (by decide)] at heq
              injection heq with h1 _
              exact absurd h1 (by decide)
          · next heq =>
              rw [inv_fields ((k, v) :: fs) rest f (by simp) hgf
                (by simp [sizeV] at hf; omega)]
              rfl

theorem inv_items (vs : List JVal) (rest : List Char) (f : Nat) (hne : vs ≠ [])
    (hg : goodItems vs = true) (hf : sizeItems vs < f) :
    parseItems f (serItems vs ++ ']' :: rest) = some (vs, rest) := by
  cases f with
  | zero => exact absurd hf (Nat.not_lt_zero _)
  | succ f =>
  match vs, hne with
  | [v], _ =>
      have hgv : goodV v = true := by
        simp [goodItems, Bool.and_eq_true] at hg
        exact hg
      simp only [parseItems]
      rw [show serItems [v] = serChars v from rfl,
        inv_val v (']' :: rest) f hgv (by simp [Bdry])
          (by simp [sizeItems] at hf; omega)]
      simp only []
      rw [skipWs_cons_of_not _ (by decide)]
      rfl
  | v :: w :: vs, _ =>
      have hgv : goodV v = true := by
        simp [goodItems, Bool.and_eq_true] at hg
        exact hg.1
      have hgrest : goodItems (w :: vs) = true := by
        simp [goodItems, Bool.and_eq_true] at hg
        simp [goodItems, Bool.and_eq_true]
        exact hg.2
      simp only [parseItems]
      have hsh : serItems (v :: w :: vs) ++ ']' :: rest =
          serChars v ++ (',' :: ' ' :: (serItems (w :: vs) ++ ']' :: rest)) := by
        rw [show serItems (v :: w :: vs) =
          serChars v ++ ',' :: ' ' :: serItems (w :: vs) from rfl]
        simp [List.append_assoc]
      rw [hsh, inv_val v _ f hgv (by simp [Bdry])
        (by simp [sizeItems] at hf; omega)]
      simp only []
      rw [skipWs_cons_of_not _ (by decide)]
      simp only []
      rw [parseItems_sp, inv_items (w :: vs) rest f (by simp) hgrest
        (by simp [sizeItems] at hf ⊢; omega)]
      rfl

theorem inv_fields (fs : List (String × JVal)) (rest : List Char) (f : Nat) (hne : fs ≠ [])
    (hg : goodFields fs = true) (hf : sizeFields fs < f) :
    parseFields f (serFields fs ++ '\x7d' :: rest) = some (fs, rest) := by
  cases f with
  | zero => exact absurd hf (Nat.not_lt_zero _)
  | succ f =>
  match fs, hne with
  | [(k, v)], _ =>
      have hk : ∀ c ∈ k.data, plainChar c = true := by
        simp [goodFields, Bool.and_eq_true, List.all_eq_true] at hg
        exact hg.1
      have hgv : goodV v = true := by
        simp [goodFields, Bool.and_eq_true] at hg
        exact hg.2
      have hsh : serFields [(k, v)] ++ '\x7d' :: rest =
          '"' :: (k.data ++ '"' :: (':' :: ' ' :: (serChars v ++ '\x7d' :: rest))) := by
        rw [show serFields [(k, v)] =
          '"' :: (strBody k.data ++ '"' :: ':' :: ' ' :: serChars v) from rfl,
          strBody_plain k.data hk]
        simp [List.append_assoc]
      rw [hsh]
      simp only [parseFields]
      rw [skipWs_cons_of_not _ (by decide)]
      simp only []
      rw [readStr_plain k.data _ hk]
      simp only []
      rw [skipWs_cons_of_not _ (by decide)]
      simp only []
      rw [parseVal_sp, inv_val v ('\x7d' :: rest) f hgv (by simp [Bdry])
        (by simp [sizeFields] at hf; omega)]
      simp only []
      rw [skipWs_cons_of_not _ (by decide)]
      simp only [stringMk_data]
  | (k, v) :: (k2, v2) :: fs, _ =>
      have hk : ∀ c ∈ k.data, plainChar c = true := by
        simp [goodFields, Bool.and_eq_true, List.all_eq_true] at hg
        exact hg.1.1
      have hgv : goodV v = true := by
        simp [goodFields, Bool.and_eq_true] at hg
        exact hg.1.2
      have hgrest : goodFields ((k2, v2) :: fs) = true := by
        simp [goodFields, Bool.and_eq_true] at hg ⊢
        exact hg.2
      have hsh : serFields ((k, v) :: (k2, v2) :: fs) ++ '\x7d' :: rest =
          '"' :: (k.data ++ '"' :: (':' :: ' ' :: (serChars v ++
            ',' :: ' ' :: (serFields ((k2, v2) :: fs) ++ '\x7d' :: rest)))) := by
        rw [show serFields ((k, v) :: (k2, v2) :: fs) =
          ('"' :: (strBody k.data ++ '"' :: ':' :: ' ' :: serChars v)) ++
            ',' :: ' ' :: serFields ((k2, v2) :: fs) from rfl,
          strBody_plain k.data hk]
        simp [List.append_assoc]
      rw [hsh]
      simp only [parseFields]
      rw [skipWs_cons_of_not _ (by decide)]
      simp only []
      rw [readStr_plain k.data _ hk]
      simp only []
      rw [skipWs_cons_of_not _ (by decide)]
      simp only []
      rw [parseVal_sp, inv_val v _ f hgv (by simp [Bdry])
        (by simp [sizeFields] at hf; omega)]
      simp only []
      rw [skipWs_cons_of_not _ (by decide)]
      simp only []
      rw [parseFields_sp, inv_fields ((k2, v2) :: fs) rest f (by simp) hgrest
        (by simp [sizeFields] at hf ⊢; omega)]
      simp [stringMk_data]

end



theorem serChars_ne_nil (v : JVal) : serChars v ≠ [] := by
  cases v with
  | jstr s => simp [serChars]
  | jint i =>
      cases i with
      | ofNat n => simpa [serChars, intChars, natChars] using toDigits_ne_nil n
      | negSucc n => simp [serChars, intChars]
  | jdec m p =>
      cases m with
      | ofNat m' =>
          simp [serChars, decChars, natChars]
      | negSucc m' => simp [serChars, decChars]
  | jarr vs => simp [serChars]
  | jobj fs => simp [serChars]

mutual

theorem sizeV_le (v : JVal) : sizeV v ≤ (serChars v).length := by
  cases v with
  | jstr s =>
      have := List.length_pos.mpr (serChars_ne_nil (.jstr s))
      simp only [sizeV]
      omega
  | jint i =>
      have := List.length_pos.mpr (serChars_ne_nil (.jint i))
      simp only [sizeV]
      omega
  | jdec m p =>
      have := List.length_pos.mpr (serChars_ne_nil (.jdec m p))
      simp only [sizeV]
      omega
  | jarr vs =>
      have := sizeItems_le vs
      simp only [sizeV, serChars, List.length_cons, List.length_append, List.length_singleton]
      omega
  | jobj fs =>
      have := sizeFields_le fs
      simp only [sizeV, serChars, List.length_cons, List.length_append, List.length_singleton]
      omega

theorem sizeItems_le (vs : List JVal) : sizeItems vs ≤ (serItems vs).length + 1 := by
  cases vs with
  | nil => simp [sizeItems, serItems]
  | cons v vs =>
      cases vs with
      | nil =>
          have h1 := sizeV_le v
          have h2 := List.length_pos.mpr (serChars_ne_nil v)
          rw [show sizeItems [v] = max (sizeV v) (sizeItems []) + 1 from rfl,
            show sizeItems ([] : List JVal) = 1 from rfl,
            show serItems [v] = serChars v from rfl]
          omega
      | cons w vs =>
          have h1 := sizeV_le v
          have h2 := sizeItems_le (w :: vs)
          rw [show sizeItems (v :: w :: vs) = max (sizeV v) (sizeItems (w :: vs)) + 1 from rfl,
            show serItems (v :: w :: vs) =
              serChars v ++ ',' :: ' ' :: serItems (w :: vs) from rfl]
          simp only [List.length_append, List.length_cons]
          omega

theorem sizeFields_le (fs : List (String × JVal)) :
    sizeFields fs ≤ (serFields fs).length + 1 := by
  cases fs with
  | nil => simp [sizeFields, serFields]
  | cons kv fs =>
      obtain ⟨k, v⟩ := kv
      cases fs with
      | nil =>
          have h1 := sizeV_le v
          rw [show sizeFields [(k, v)] = max (sizeV v) (sizeFields []) + 1 from rfl,
            show sizeFields ([] : List (String × JVal)) = 1 from rfl,
            show serFields [(k, v)] =
              '"' :: (strBody k.data ++ '"' :: ':' :: ' ' :: serChars v) from rfl]
          simp only [List.length_append, List.length_cons]
          omega
      | cons g fs =>
          have h1 := sizeV_le v
          have h2 := sizeFields_le (g :: fs)
          rw [show sizeFields ((k, v) :: g :: fs) =
              max (sizeV v) (sizeFields (g :: fs)) + 1 from rfl,
            show serFields ((k, v) :: g :: fs) =
              ('"' :: (strBody k.data ++ '"' :: ':' :: ' ' :: serChars v)) ++
                ',' :: ' ' :: serFields (g :: fs) from rfl]
          simp only [List.length_append, List.length_cons]
          omega

end



theorem loads_dumps (v : JVal) (hg : goodV v = true) : loads (dumps v) = some v := by
  unfold loads dumps
  have hfuel : sizeV v < (String.mk (serChars v)).length + 1 := by
    have := sizeV_le v
    have hl : (String.mk (serChars v)).length = (serChars v).length := rfl
    omega
  have hinv := inv_val v [] ((String.mk (serChars v)).length + 1) hg trivial hfuel
  rw [List.append_nil] at hinv
  rw [show (String.mk (serChars v)).data = serChars v from rfl, hinv]
  rfl

theorem plain_of_upperHex {c : Char} (h : isUpperHex c = true) : plainChar c = true := by
  have hr : (48 ≤ c.toNat ∧ c.toNat ≤ 57) ∨ (65 ≤ c.toNat ∧ c.toNat ≤ 70) := by
    simpa [isUpperHex] using h
  apply plainChar_iff.mpr
  refine ⟨?_, ?_, by omega⟩
  · rintro rfl
    exact absurd hr (by decide)
  · rintro rfl
    exact absurd hr (by decide)

theorem mkTrackingId_data (h1 : String) :
    (mkTrackingId h1).data = 'T' :: 'R' :: 'K' :: '-' :: (h1.data.take 8).map Char.toUpper := rfl

theorem orderId_plain (hexO : String) (hx : ∀ c ∈ hexO.data, isLowerHex c = true) :
    ∀ c ∈ (mkOrderId hexO).data, plainChar c = true := by
  rw [mkOrderId_data]
  intro c hc
  rcases hc with _ | ⟨_, _ | ⟨_, _ | ⟨_, _ | ⟨_, hc⟩⟩⟩⟩
  · decide
  · decide
  · decide
  · decide
  · obtain ⟨d, hd, rfl⟩ := List.mem_map.mp hc
    exact plain_of_upperHex (upperHex_of_toUpper_lowerHex (hx d (List.mem_of_mem_take hd)))

theorem trackingId_plain (hexT : String) (hx : ∀ c ∈ hexT.data, isLowerHex c = true) :
    ∀ c ∈ (mkTrackingId hexT).data, plainChar c = true := by
  rw [mkTrackingId_data]
  intro c hc
  rcases hc with _ | ⟨_, _ | ⟨_, _ | ⟨_, _ | ⟨_, hc⟩⟩⟩⟩
  · decide
  · decide
  · decide
  · decide
  · obtain ⟨d, hd, rfl⟩ := List.mem_map.mp hc
    exact plain_of_upperHex (upperHex_of_toUpper_lowerHex (hx d (List.mem_of_mem_take hd)))

theorem goodV_orderDetail (oid : String) (hp : ∀ c ∈ oid.data, plainChar c = true) :
    goodV (orderDetail oid) = true := by
  simp only [orderDetail, goodV, goodItems, goodFields, Bool.and_eq_true]
  repeat' apply And.intro
  all_goals first
    | decide
    | exact List.all_eq_true.mpr hp

theorem goodV_paymentDetail (oid : String) (hp : ∀ c ∈ oid.data, plainChar c = true) :
    goodV (paymentDetail oid) = true := by
  simp only [paymentDetail, goodV, goodItems, goodFields, Bool.and_eq_true]
  repeat' apply And.intro
  all_goals first
    | decide
    | exact List.all_eq_true.mpr hp

theorem goodV_shipmentDetail (oid trk : String)
    (hp : ∀ c ∈ oid.data, plainChar c = true)
    (ht : ∀ c ∈ trk.data, plainChar c = true) :
    goodV (shipmentDetail oid trk) = true := by
  simp only [shipmentDetail, goodV, goodItems, goodFields, Bool.and_eq_true]
  repeat' apply And.intro
  all_goals first
    | decide
    | exact List.all_eq_true.mpr hp
    | exact List.all_eq_true.mpr ht


/-! ### The claims -/

/-- C1: with a client that reports `failedEntryCount = 0` on every call and
returns a synthetic event id, `publish_sample_events` performs exactly 3
submit calls (each of one entry), and prints exactly 3 success
confirmations, one per call, in the order order-created, payment-failed,
shipment-created, each followed by the service-assigned event id. -/
theorem publish_sample_events_success_trace (hexO hexT : String) (t : Nat → Nat)
    (eid : Nat → String) :
    (publish_sample_events hexO hexT t
        (fun i _ => .ok ⟨0, [⟨some (eid i), none, none⟩]⟩)).calls.length = 3 ∧
    ((publish_sample_events hexO hexT t
        (fun i _ => .ok ⟨0, [⟨some (eid i), none, none⟩]⟩)).calls.map
      fun c => c.submitted.length) = [1, 1, 1] ∧
    ((publish_sample_events hexO hexT t
        (fun i _ => .ok ⟨0, [⟨some (eid i), none, none⟩]⟩)).calls.map
      CallRecord.output) =
      [["✅ Published: OrderCreated from app.orders", "   Event ID: " ++ eid 0],
       ["✅ Published: PaymentFailed from app.payments", "   Event ID: " ++ eid 1],
       ["✅ Published: ShipmentCreated from app.shipping", "   Event ID: " ++ eid 2]] ∧
    (publish_sample_events hexO hexT t
        (fun i _ => .ok ⟨0, [⟨some (eid i), none, none⟩]⟩)).output =
      ["🚀 Publishing events to EventBridge bus: ecom-bus",
       dashes,
       "📦 Order ID: " ++ mkOrderId hexO,
       dashes,
       "✅ Published: OrderCreated from app.orders", "   Event ID: " ++ eid 0,
       "✅ Published: PaymentFailed from app.payments", "   Event ID: " ++ eid 1,
       "✅ Published: ShipmentCreated from app.shipping", "   Event ID: " ++ eid 2] ++
      closingLines :=
  ⟨rfl, rfl, rfl, rfl⟩

/-- C2: every exception raised by the put-events call is caught: the call
record shows one submission (no retry), one error diagnostic carrying the
exception message, and a normal return; and when the client raises on the
third call only, all 3 calls are performed, success is printed for the
first two, one error diagnostic for the third, and the run completes
through the closing banner (no exception escapes). -/
theorem publish_event_exception_swallowed (hexO hexT : String) (t : Nat → Nat)
    (eid : Nat → String) (e : String) :
    (∀ (tm : Nat) (s dt : String) (d : JVal),
        publish_event (fun _ => .error e) tm s dt d =
          ⟨[⟨BUS_NAME, s, dt, dumps d, tm⟩], ["❌ Error: " ++ e], d⟩) ∧
    (let tr := publish_sample_events hexO hexT t
        (fun i _ => if i = 2 then .error e else .ok ⟨0, [⟨some (eid i), none, none⟩]⟩)
     tr.calls.length = 3 ∧
     (tr.calls.map CallRecord.output) =
       [["✅ Published: OrderCreated from app.orders", "   Event ID: " ++ eid 0],
        ["✅ Published: PaymentFailed from app.payments", "   Event ID: " ++ eid 1],
        ["❌ Error: " ++ e]] ∧
     tr.output =
       ["🚀 Publishing events to EventBridge bus: ecom-bus",
        dashes,
        "📦 Order ID: " ++ mkOrderId hexO,
        dashes,
        "✅ Published: OrderCreated from app.orders", "   Event ID: " ++ eid 0,
        "✅ Published: PaymentFailed from app.payments", "   Event ID: " ++ eid 1,
        "❌ Error: " ++ e] ++ closingLines) :=
  ⟨fun _ _ _ _ => rfl, rfl, rfl, rfl⟩

/-- C3: when the client reports `failedEntryCount = 1` on the second call
only, all 3 submit calls are still performed, and the full output shows
exactly one failure diagnostic — for the second event, listing the failed
entries — with execution continuing to the third event and the closing
banner. -/
theorem publish_sample_events_partial_failure (hexO hexT : String) (t : Nat → Nat)
    (eid : Nat → String) (fes : List RespEntry) :
    let tr := publish_sample_events hexO hexT t
      (fun i _ => if i = 1 then .ok ⟨1, fes⟩ else .ok ⟨0, [⟨some (eid i), none, none⟩]⟩)
    tr.calls.length = 3 ∧
    (tr.calls.map CallRecord.output) =
      [["✅ Published: OrderCreated from app.orders", "   Event ID: " ++ eid 0],
       ["❌ Failed: " ++ reprEntries fes],
       ["✅ Published: ShipmentCreated from app.shipping", "   Event ID: " ++ eid 2]] ∧
    tr.output =
      ["🚀 Publishing events to EventBridge bus: ecom-bus",
       dashes,
       "📦 Order ID: " ++ mkOrderId hexO,
       dashes,
       "✅ Published: OrderCreated from app.orders", "   Event ID: " ++ eid 0,
       "❌ Failed: " ++ reprEntries fes,
       "✅ Published: ShipmentCreated from app.shipping", "   Event ID: " ++ eid 2] ++
      closingLines :=
  ⟨rfl, rfl, rfl⟩

/-- C4: every `publish_event` call submits exactly one entry, carrying the
configured bus name `"ecom-bus"`, the given source and detail type, the
JSON serialization of the detail, and the call-time timestamp. -/
theorem publish_event_single_entry (call : ClientCall) (tm : Nat)
    (source detail_type : String) (detail : JVal) :
    (publish_event call tm source detail_type detail).submitted =
      [⟨BUS_NAME, source, detail_type, dumps detail, tm⟩] ∧
    BUS_NAME = "ecom-bus" :=
  ⟨rfl, rfl⟩

/-- C5: one order identifier is generated per run and that same string is
the `"orderId"` field of all three sample details; the three submitted
batches carry exactly the serializations of those three details. -/
theorem order_id_correlation (hexO hexT : String) (t : Nat → Nat)
    (client : Nat → ClientCall) :
    getField "orderId" (orderDetail (mkOrderId hexO)) = some (.jstr (mkOrderId hexO)) ∧
    getField "orderId" (paymentDetail (mkOrderId hexO)) = some (.jstr (mkOrderId hexO)) ∧
    getField "orderId" (shipmentDetail (mkOrderId hexO) (mkTrackingId hexT)) =
      some (.jstr (mkOrderId hexO)) ∧
    (publish_sample_events hexO hexT t client).calls.map
        (fun c => c.submitted.map Entry.detail) =
      [[dumps (orderDetail (mkOrderId hexO))],
       [dumps (paymentDetail (mkOrderId hexO))],
       [dumps (shipmentDetail (mkOrderId hexO) (mkTrackingId hexT))]] :=
  ⟨rfl, rfl, rfl, rfl⟩

/-- C6: for each of the three sample event details (for every run, i.e.
every pair of lowercase-hex uuid draws), serialization succeeds and
deserializing the produced JSON string reproduces the original mapping. -/
theorem sample_details_json_roundtrip (hexO hexT : String)
    (hx1 : ∀ c ∈ hexO.data, isLowerHex c = true)
    (hx2 : ∀ c ∈ hexT.data, isLowerHex c = true) :
    loads (dumps (orderDetail (mkOrderId hexO))) = some (orderDetail (mkOrderId hexO)) ∧
    loads (dumps (paymentDetail (mkOrderId hexO))) = some (paymentDetail (mkOrderId hexO)) ∧
    loads (dumps (shipmentDetail (mkOrderId hexO) (mkTrackingId hexT))) =
      some (shipmentDetail (mkOrderId hexO) (mkTrackingId hexT)) := by
  have hpO := orderId_plain hexO hx1
  have hpT := trackingId_plain hexT hx2
  exact ⟨loads_dumps _ (goodV_orderDetail _ hpO),
    loads_dumps _ (goodV_paymentDetail _ hpO),
    loads_dumps _ (goodV_shipmentDetail _ _ hpO hpT)⟩

/-- C6 witness: the round-trip theorem applied at a concrete uuid draw. -/
theorem sample_details_json_roundtrip_witness :
    loads (dumps (orderDetail (mkOrderId "0123456789abcdef0123456789abcdef"))) =
      some (orderDetail (mkOrderId "0123456789abcdef0123456789abcdef")) :=
  (sample_details_json_roundtrip "0123456789abcdef0123456789abcdef"
    "fedcba9876543210fedcba9876543210" (by decide) (by decide)).1

/-- C7 counterexample: two distinct 32-character lowercase-hex uuid draws
that agree on their first 8 characters yield the same order identifier, so
distinct random values do not always produce different identifiers. -/
theorem order_id_distinct_runs_cex :
    ("0123456789abcdef0123456789abcdef" : String) ≠ "01234567ffffffffffffffffffffffff" ∧
    ("0123456789abcdef0123456789abcdef" : String).length = 32 ∧
    ("01234567ffffffffffffffffffffffff" : String).length = 32 ∧
    (∀ c ∈ ("0123456789abcdef0123456789abcdef" : String).data, isLowerHex c = true) ∧
    (∀ c ∈ ("01234567ffffffffffffffffffffffff" : String).data, isLowerHex c = true) ∧
    mkOrderId "0123456789abcdef0123456789abcdef" =
      mkOrderId "01234567ffffffffffffffffffffffff" := by
  decide

/-- C7 amended: the generated identifier is `ORD-` followed by exactly 8
uppercase hex characters, and two runs whose hex draws differ within the
first 8 characters produce different identifiers. -/
theorem order_id_format_and_prefix_distinct (h1 h2 : String)
    (hx1 : ∀ c ∈ h1.data, isLowerHex c = true) (hlen : 8 ≤ h1.length)
    (hx2 : ∀ c ∈ h2.data, isLowerHex c = true)
    (hne : pySlice8 h1 ≠ pySlice8 h2) :
    (mkOrderId h1).data = 'O' :: 'R' :: 'D' :: '-' :: (h1.data.take 8).map Char.toUpper ∧
    ((mkOrderId h1).data.drop 4).length = 8 ∧
    (∀ c ∈ (mkOrderId h1).data.drop 4, isUpperHex c = true) ∧
    mkOrderId h1 ≠ mkOrderId h2 := by
  refine ⟨mkOrderId_data h1, ?_, ?_, ?_⟩
  · rw [mkOrderId_data]
    simp only [List.drop_succ_cons, List.drop_zero, List.length_map, List.length_take]
    have : 8 ≤ h1.data.length := hlen
    omega
  · rw [mkOrderId_data]
    simp only [List.drop_succ_cons, List.drop_zero, List.mem_map]
    rintro c ⟨d, hd, rfl⟩
    exact upperHex_of_toUpper_lowerHex (hx1 d (List.mem_of_mem_take hd))
  · intro heq
    have hd := congrArg String.data heq
    rw [mkOrderId_data, mkOrderId_data] at hd
    simp only [List.cons.injEq, true_and] at hd
    have := map_toUpper_inj _ _
      (fun c hc => hx1 c (List.mem_of_mem_take hc))
      (fun c hc => hx2 c (List.mem_of_mem_take hc)) hd
    exact hne (congrArg String.mk this)

/-- C7 amended, witness: the amended theorem applied at two concrete uuid
hex draws that differ within the first 8 characters. -/
theorem order_id_format_and_prefix_distinct_witness :
    mkOrderId "0123456789abcdef0123456789abcdef" ≠
      mkOrderId "fedcba9876543210fedcba9876543210" :=
  (order_id_format_and_prefix_distinct
    "0123456789abcdef0123456789abcdef" "fedcba9876543210fedcba9876543210"
    (by decide) (by decide) (by decide) (by decide)).2.2.2

/-- C8: the script entry point ignores its argument vector and exits with
status 0 for every client behavior — failures and exceptions included —
because the run always completes without an escaping exception. -/
theorem script_exit_zero (argv : List String) (hexO hexT : String) (t : Nat → Nat)
    (client : Nat → ClientCall) :
    exitCode argv hexO hexT t client = 0 ∧
    (∀ argv2, script_main argv2 hexO hexT t client = script_main argv hexO hexT t client) ∧
    script_main argv hexO hexT t client = .ok (publish_sample_events hexO hexT t client) :=
  ⟨rfl, fun _ => rfl, rfl⟩

/-- C9: for every client behavior — hence every outcome of the three
publish calls — the run's output ends with the fixed closing banner, which
contains the success line and the three routing-expectation lines. -/
theorem closing_banner_unconditional (hexO hexT : String) (t : Nat → Nat)
    (client : Nat → ClientCall) :
    (∃ pre, (publish_sample_events hexO hexT t client).output = pre ++ closingLines) ∧
    closingLines[1]? = some "🎉 All events published successfully!" ∧
    closingLines[2]? = some "📋 Expected routing:" ∧
    closingLines[3]? = some "   • OrderCreated → topic-orders + q-orders" ∧
    closingLines[4]? = some "   • PaymentFailed → topic-alerts" ∧
    closingLines[5]? = some "   • ShipmentCreated → q-shipments" := by
  refine ⟨⟨["🚀 Publishing events to EventBridge bus: " ++ BUS_NAME, dashes,
      "📦 Order ID: " ++ mkOrderId hexO, dashes] ++
      (publish_event (client 0) (t 0) "app.orders" "OrderCreated"
        (orderDetail (mkOrderId hexO))).output ++
      (publish_event (client 1) (t 1) "app.payments" "PaymentFailed"
        (paymentDetail (mkOrderId hexO))).output ++
      (publish_event (client 2) (t 2) "app.shipping" "ShipmentCreated"
        (shipmentDetail (mkOrderId hexO) (mkTrackingId hexT))).output, ?_⟩,
    rfl, rfl, rfl, rfl, rfl⟩
  simp only [publish_sample_events, List.append_assoc]

/-- C10: `publish_event` never mutates its detail argument: the detail
value visible to the caller after the call is the one passed in. -/
theorem publish_event_preserves_detail (call : ClientCall) (tm : Nat)
    (source detail_type : String) (detail : JVal) :
    (publish_event call tm source detail_type detail).detailAfter = detail :=
  rfl

end Producer
